import Mathlib

/-!
Shallow embedding of the media-download orchestrator of the CPVideos
repository (two Go bot variants: `src/bot.go` and the webhook variant in
`src/unnamed/part_002`), together with theorems settling the frozen claims
about format filtering, callback handling, download post-processing,
progress parsing/reporting, subprocess timeouts, the workspace janitor and
the progress-bar renderer.

Machine integers are modelled as `Nat`/`Int`, Go floats as exact rationals
(`ℚ`), panics and fallible operations as `Option`, and the filesystem
workspace as an explicit list of files.
-/

namespace CPVideos

/-- Model of Go `strings.Split(s, string(sep))` for a one-character
separator, over the character list of the string: splits at every
occurrence of `sep`, keeping empty fields, and returns `[[]]` on the empty
string. -/
def goSplit (sep : Char) : List Char → List (List Char)
  | [] => [[]]
  | c :: cs =>
    let rest := goSplit sep cs
    if c == sep then [] :: rest
    else (c :: rest.headD []) :: rest.tail

/-- `hasPre pat cs` holds when `pat` is an initial segment of `cs`
(model of a prefix test on Go strings). -/
def hasPre : List Char → List Char → Bool
  | [], _ => true
  | _ :: _, [] => false
  | p :: ps, c :: cs => p == c && hasPre ps cs

/-- Model of Go `strings.Contains`: `pat` occurs contiguously in `cs`. -/
def hasSub (pat : List Char) : List Char → Bool
  | [] => hasPre pat []
  | c :: cs => hasPre pat (c :: cs) || hasSub pat cs

/-- Numeric value of a list of decimal digit characters, most significant
first (used to model parsing of the digit groups captured from subprocess
output). -/
def digitsVal (ds : List Char) : Nat :=
  ds.foldl (fun a c => a * 10 + (c.toNat - '0'.toNat)) 0

namespace BotGo

/-- Model of the `FormatInfo` struct of `src/bot.go` (fields in source
order; `filesize` is Go `int64`). -/
structure FormatInfo where
  formatID : String
  ext : String
  resolution : String
  filesize : Int
  formatNote : String
  acodec : String
  vcodec : String
deriving DecidableEq, Repr

/-- Model of `filterVideoFormats` (`src/bot.go:473-487`): the loop appends
a format when it has both codecs not equal to `"none"` and, nested inside,
its extension is `mp4` or `webm`. -/
def filterVideoFormats : List FormatInfo → List FormatInfo
  | [] => []
  | f :: rest =>
    if f.vcodec ≠ "none" ∧ f.acodec ≠ "none" then
      if f.ext = "mp4" ∨ f.ext = "webm" then f :: filterVideoFormats rest
      else filterVideoFormats rest
    else filterVideoFormats rest

/-- Model of `filterAudioFormats` (`src/bot.go:489-500`): keeps formats
whose video codec is `"none"` and whose audio codec is not `"none"`. -/
def filterAudioFormats : List FormatInfo → List FormatInfo
  | [] => []
  | f :: rest =>
    if f.vcodec = "none" ∧ f.acodec ≠ "none" then f :: filterAudioFormats rest
    else filterAudioFormats rest

/-- Model of the truncation in `sendFormatButtons` (`src/bot.go:259-264`):
`if len(formats) > 8 { formats = formats[:8] }`; the list is otherwise
presented in the order received. -/
def presentedFormats (formats : List FormatInfo) : List FormatInfo :=
  if formats.length > 8 then formats.take 8 else formats

end BotGo

/-- Spec-side definition (from the spec's words, for comparison with the
code): the resolution/bitrate rank of a descriptor, read as the leading
decimal digits of its `resolution` string (e.g. `"720p" ↦ 720`). -/
def specResRank (f : BotGo.FormatInfo) : Nat :=
  digitsVal (f.resolution.data.takeWhile Char.isDigit)

/-- Spec-side definition: a presented list is ordered by descending
resolution/bitrate class. -/
def specSortedDesc (l : List BotGo.FormatInfo) : Prop :=
  l.Sorted (fun a b => specResRank b ≤ specResRank a)

instance specSortedDesc_decidable (l : List BotGo.FormatInfo) :
    Decidable (specSortedDesc l) :=
  List.instDecidablePairwise l

/-- A file of the shared workspace directory: its (base) name, its size in
bytes and its last-modification time (seconds). Chat ids appearing inside
file names are modelled as the strings Go prints them to. -/
structure WFile where
  name : String
  size : Nat
  modTime : Nat
deriving DecidableEq, Repr

/-- Model of `os.Remove(path)` on the workspace: drops the entry with the
given name. -/
def removeFile (ws : List WFile) (name : String) : List WFile :=
  ws.filter fun f => f.name ≠ name

/-- Model of `os.Stat(path)` on the workspace: the entry with the given
name, if present. -/
def statFile (ws : List WFile) (name : String) : Option WFile :=
  ws.find? fun f => f.name == name

/-- Failure reasons of the orchestrator's error taxonomy that the modelled
code paths can reach. -/
inductive FailReason where
  | DownloadFailed
  | FileNotFound
  | ArtifactTooLarge
deriving DecidableEq, Repr

/-- Terminal outcome of one download execution. -/
inductive Outcome where
  | Done
  | Failed (reason : FailReason)
deriving DecidableEq, Repr

/-- Result of the post-subprocess phase of a download: the outcome, the
artifact delivered to the user (if any), the workspace left behind, and
whether the conversation's session entry was removed. -/
structure DLResult where
  outcome : Outcome
  delivered : Option String
  workspace : List WFile
  sessionRemoved : Bool
deriving DecidableEq, Repr

/-- The 50MB Telegram Bot API payload ceiling (`MaxFileSizeBotAPI` in
`src/unnamed/part_002:29`, and the literal `50*1024*1024` in
`src/bot.go:385`). -/
def MaxFileSizeBotAPI : Nat := 50 * 1024 * 1024

namespace BotGo

/-- Model of `findDownloadedFile` (`src/bot.go:429-456`): among workspace
files whose name starts with `{chatID}_{formatID}_`, scan in order keeping
the entry with a strictly later modification time than any seen so far
(the initial "latest" time is the zero time). -/
def findDownloadedFile (chatID formatID : String) (ws : List WFile) :
    Option WFile :=
  let pre := chatID ++ "_" ++ formatID ++ "_"
  let files := ws.filter fun f => hasPre pre.data f.name.data
  let pick := files.foldl
    (fun (acc : Nat × Option WFile) f =>
      if f.modTime > acc.1 then (f.modTime, some f) else acc)
    (0, none)
  pick.2

/-- Model of the post-`cmd.Run()` phase of `downloadAndSend`
(`src/bot.go:367-398`): on non-zero exit, report failure and return (no
cleanup); otherwise locate the artifact, fail if absent; fail and delete
it when it exceeds the 50MB ceiling; otherwise send it, delete it and drop
the user's session entry. -/
def downloadAndSend (chatID formatID : String) (runOk : Bool)
    (ws : List WFile) : DLResult :=
  if !runOk then ⟨.Failed .DownloadFailed, none, ws, false⟩
  else
    match findDownloadedFile chatID formatID ws with
    | none => ⟨.Failed .FileNotFound, none, ws, false⟩
    | some f =>
      if f.size > MaxFileSizeBotAPI then
        ⟨.Failed .ArtifactTooLarge, none, removeFile ws f.name, false⟩
      else
        ⟨.Done, some f.name, removeFile ws f.name, true⟩

/-- Retention threshold of the bot.go janitor (`src/bot.go:526`): one hour,
in seconds. -/
def cleanerRetention : Nat := 3600

/-- Tick interval of the bot.go janitor (`src/bot.go:514`): five minutes,
in seconds. -/
def cleanerInterval : Nat := 300

end BotGo

/-- Model of one janitor sweep (`autoCleaner`, `src/bot.go:513-532` and
`src/unnamed/part_002:539-550`): every workspace file whose age
`now - modTime` exceeds the retention threshold is removed (both variants
delete when `time.Since(ModTime) > threshold`; files whose `os.Stat`
succeeds are assumed, a stat error merely skips the file in the source). -/
def autoCleanerSweep (threshold now : Nat) (ws : List WFile) : List WFile :=
  ws.filter fun f => !(now - f.modTime > threshold)

namespace BotP2

/-- Retention threshold of the part_002 janitor
(`src/unnamed/part_002:545`): thirty minutes, in seconds. -/
def cleanerRetention : Nat := 1800

/-- Tick interval of the part_002 janitor (`src/unnamed/part_002:540`):
ten minutes, in seconds. -/
def cleanerInterval : Nat := 600

/-- Model of the post-`cmd.Wait()` phase of `performDownload`
(`src/unnamed/part_002:367-409`): on non-zero exit, report failure and
remove the final artifact path; otherwise stat the artifact, fail if
absent (no removal); fail and delete it when it exceeds
`MaxFileSizeBotAPI`; otherwise upload it, delete it and drop the session
entry (thumbnail handling, which only happens on the success path, is not
modelled). -/
def performDownload (finalPath : String) (runOk : Bool)
    (ws : List WFile) : DLResult :=
  if !runOk then ⟨.Failed .DownloadFailed, none, removeFile ws finalPath, false⟩
  else
    match statFile ws finalPath with
    | none => ⟨.Failed .FileNotFound, none, ws, false⟩
    | some f =>
      if f.size > MaxFileSizeBotAPI then
        ⟨.Failed .ArtifactTooLarge, none, removeFile ws finalPath, false⟩
      else
        ⟨.Done, some finalPath, removeFile ws finalPath, true⟩

end BotP2

/-- An external subprocess invocation: the tool, its argument list, and
the wall-clock ceiling (milliseconds) imposed through
`context.WithTimeout`, when any. -/
structure CmdSpec where
  tool : String
  args : List String
  timeoutMs : Option Nat
deriving DecidableEq, Repr

namespace BotP2

/-- Model of the probe invocation built in `processLink`
(`src/unnamed/part_002:202-205`): `yt-dlp -j --no-playlist url` under a
15-second `context.WithTimeout`. -/
def probeCmd (url : String) : CmdSpec :=
  ⟨"yt-dlp", ["-j", "--no-playlist", url], some 15000⟩

/-- Model of the download invocation built in `performDownload`
(`src/unnamed/part_002:326-354`): argument lists for the audio and video
modes, spawned with plain `exec.Command`, i.e. with no context timeout. -/
def downloadCmd (mode quality outputTemplate url : String) : CmdSpec :=
  if mode = "audio" then
    ⟨"yt-dlp",
      ["-f", "bestaudio/best", "-x", "--audio-format", "mp3",
       "--audio-quality", "0", "-o", outputTemplate, url], none⟩
  else
    ⟨"yt-dlp",
      ["-f", "bestvideo[height<=" ++ quality ++ "]+bestaudio/best[height<="
        ++ quality ++ "]/best",
       "--merge-output-format", "mp4", "-o", outputTemplate, url], none⟩

end BotP2

namespace BotGo

/-- Model of the probe invocation of `getVideoInfo` (`src/bot.go:458-459`):
plain `exec.Command`, no timeout. -/
def probeCmd (url : String) : CmdSpec :=
  ⟨"yt-dlp", ["-j", "--no-playlist", url], none⟩

/-- Model of the download invocation of `downloadAndSend`
(`src/bot.go:347-365`): plain `exec.Command`, no timeout. -/
def downloadCmd (formatType formatID outputPath url : String) : CmdSpec :=
  if formatType = "audio" then
    ⟨"yt-dlp",
      ["-f", formatID, "-x", "--audio-format", "mp3", "--audio-quality",
       "0", "-o", outputPath, "--no-playlist", url], none⟩
  else
    ⟨"yt-dlp", ["-f", formatID, "-o", outputPath, "--no-playlist", url],
      none⟩

/-- Model of the per-user session state of bot.go (`UserState`,
`src/bot.go:27-31`). -/
structure UserState where
  lastURL : String
  lastFormat : String
  formats : List FormatInfo
deriving DecidableEq, Repr

/-- Observable effect of one callback event in bot.go. -/
inductive CallbackAct where
  | ignored
  | expiredMsg
  | showFormats (mode : String)
  | download (formatID : String) (formatType : String)
  | cancel
deriving DecidableEq, Repr

/-- Model of `handleCallback` (`src/bot.go:185-227`): split the callback
data on `:`; fewer than two parts is ignored; a missing session or an
empty stored URL yields the "session expired" reply; `type:` stores the
chosen kind and probes formats; `format:` with exactly three parts invokes
`downloadAndSend` with the id as received — the stored `formats` list is
never consulted; `cancel:` removes the session. Returns the session after
the event and the effect. -/
def handleCallback (state? : Option UserState) (data : String) :
    Option UserState × CallbackAct :=
  let parts := (goSplit ':' data.data).map fun l => String.mk l
  if parts.length < 2 then (state?, .ignored)
  else
    let action := parts.headD ""
    let value := parts.getD 1 ""
    match state? with
    | none => (none, .expiredMsg)
    | some st =>
      if st.lastURL = "" then (some st, .expiredMsg)
      else if action = "type" then
        (some { st with lastFormat := value }, .showFormats value)
      else if action = "format" then
        if parts.length = 3 then (some st, .download (parts.getD 2 "") value)
        else (some st, .ignored)
      else if action = "cancel" then (none, .cancel)
      else (some st, .ignored)

end BotGo

namespace BotP2

/-- Model of one entry of `VideoMetaData.Formats`
(`src/unnamed/part_002:55-62`). -/
structure FmtP2 where
  formatID : String
  ext : String
  height : Int
  vcodec : String
  acodec : String
  filesize : Int
deriving DecidableEq, Repr

/-- Model of the probed metadata kept per user
(`VideoMetaData`, `src/unnamed/part_002:49-63`; only the fields the
modelled paths read). -/
structure VideoMetaData where
  title : String
  webpageURL : String
  formats : List FmtP2
deriving DecidableEq, Repr

/-- Observable effect of one callback event in part_002. -/
inductive CallbackAct where
  | ignored
  | expiredMsg
  | download (mode : String) (quality : String)
  | cancel
deriving DecidableEq, Repr

/-- Model of `handleCallback` (`src/unnamed/part_002:281-312`): the exact
string `cancel` removes the session; otherwise split on `:`, requiring at
least three parts with head `dl`; a missing session yields the "session
expired" reply; otherwise `performDownload` is started with the mode and
quality as received — the stored metadata's format list is never
consulted. -/
def handleCallback (state? : Option VideoMetaData) (data : String) :
    Option VideoMetaData × CallbackAct :=
  if data = "cancel" then (none, .cancel)
  else
    let parts := (goSplit ':' data.data).map fun l => String.mk l
    if parts.length < 3 ∨ parts.headD "" ≠ "dl" then (state?, .ignored)
    else
      match state? with
      | none => (none, .expiredMsg)
      | some meta => (some meta, .download (parts.getD 1 "") (parts.getD 2 ""))

/-- Insertion of a value into a descending-sorted integer list. -/
def insertDesc (h : Int) : List Int → List Int
  | [] => [h]
  | x :: xs => if x ≤ h then h :: x :: xs else x :: insertDesc h xs

/-- Descending sort of an integer list (models
`sort.Sort(sort.Reverse(sort.IntSlice(heights)))`,
`src/unnamed/part_002:250`; on the duplicate-free key list the sorted
result is unique, so any correct sort models Go's). -/
def sortDesc : List Int → List Int
  | [] => []
  | x :: xs => insertDesc x (sortDesc xs)

/-- Model of the height collection of `createQualityKeyboard`
(`src/unnamed/part_002:237-249`): the set of heights of formats with a
video codec not `"none"` and a positive height (the `resolutions` map,
whose key set is what survives; Go's random map iteration order is
irrelevant because the list is sorted next). -/
def collectHeights (formats : List FmtP2) : List Int :=
  ((formats.filter fun f => f.vcodec ≠ "none" ∧ f.height > 0).map
    fun f => f.height).dedup

/-- Model of the video-quality button labels' heights of
`createQualityKeyboard` (`src/unnamed/part_002:237-263`): unique heights,
sorted descending, at most the first four. -/
def videoButtonHeights (formats : List FmtP2) : List Int :=
  (sortDesc (collectHeights formats)).take 4

/-- Go `regexp` whitespace class `\s` = `[\t\n\f\r ]`. -/
def isGoWS (c : Char) : Bool :=
  c == ' ' || c == '\t' || c == '\n' || c == '\x0c' || c == '\r'

/-- Matcher for the progress regex `\[download\]\s+(\d+\.\d+)%`
(`src/unnamed/part_002:420`) anchored at the head of the character list:
the literal marker, one or more whitespace characters, the two captured
digit groups around a dot, then `%`. Greedy repetition needs no
backtracking here because adjacent character classes are disjoint. Returns
the two digit groups of the capture. -/
def matchProgressAt (cs : List Char) : Option (List Char × List Char) :=
  if hasPre "[download]".data cs then
    let r0 := cs.drop ("[download]".data.length)
    if (r0.takeWhile isGoWS).isEmpty then none
    else
      let r1 := r0.dropWhile isGoWS
      let d1 := r1.takeWhile Char.isDigit
      if d1.isEmpty then none
      else
        match r1.dropWhile Char.isDigit with
        | [] => none
        | c :: r2 =>
          if c = '.' then
            let d2 := r2.takeWhile Char.isDigit
            if d2.isEmpty then none
            else
              match r2.dropWhile Char.isDigit with
              | [] => none
              | c2 :: _ => if c2 = '%' then some (d1, d2) else none
          else none
  else none

/-- Leftmost match of the progress regex in a line
(`re.FindStringSubmatch`): the first position where `matchProgressAt`
succeeds. -/
def findProgressCapture : List Char → Option (List Char × List Char)
  | [] => none
  | c :: cs =>
    match matchProgressAt (c :: cs) with
    | some r => some r
    | none => findProgressCapture cs

/-- The text of the regex's capture group: `digits.digits`. -/
def captureString (r : List Char × List Char) : String :=
  String.mk (r.1 ++ '.' :: r.2)

/-- One inbound event of the progress monitor: a subprocess output line
becoming available, or the 3-second ticker firing. `done` ends the run
(modelled by the end of the event list). -/
inductive MonEv where
  | line (s : String)
  | tick
deriving DecidableEq, Repr

/-- Tick recognizer. -/
def MonEv.isTick : MonEv → Bool
  | .tick => true
  | .line _ => false

/-- One step of `monitorProgress` (`src/unnamed/part_002:412-449`) on the
retained `lastLine`: an output line replaces `lastLine` when it contains
`[download]` (others are ignored); a tick re-parses `lastLine` (skipped
while it is still empty) and emits the captured percentage when the regex
matches. -/
def monitorStep (st : List Char) :
    MonEv → List Char × Option (List Char × List Char)
  | .line s => (if hasSub "[download]".data s.data then s.data else st, none)
  | .tick =>
    (st, if st.isEmpty then none else findProgressCapture st)

/-- The sequence of percentage captures emitted by `monitorProgress` over
an event sequence, starting from retained line `st`. -/
def monitorRun (st : List Char) : List MonEv → List (List Char × List Char)
  | [] => []
  | e :: evs =>
    match monitorStep st e with
    | (st2, some r) => r :: monitorRun st2 evs
    | (st2, none) => monitorRun st2 evs

/-- The retained `lastLine` after processing an event sequence. -/
def monitorState (st : List Char) : List MonEv → List Char
  | [] => st
  | e :: evs => monitorState (monitorStep st e).1 evs

/-- Spec-side definition: the last `[download]`-marked raw line of an event
stream, if any (what the code actually retains across ticks). -/
def lastMarkerLine : List MonEv → Option (List Char)
  | [] => none
  | .tick :: evs => lastMarkerLine evs
  | .line s :: evs =>
    match lastMarkerLine evs with
    | some t => some t
    | none => if hasSub "[download]".data s.data then some s.data else none

end BotP2

/-- Modelled Go `strconv.ParseFloat` restricted to plain decimal forms
(optional sign, digits with an optional single dot), the only forms the
progress pipeline produces; exotic accepted forms (exponents, `Inf`) are
out of the modelled fragment, and any non-matching string is a parse
error. The value is the exact rational. -/
def parseFloatGo (s : String) : Option ℚ :=
  let sign : ℚ × List Char :=
    match s.data with
    | [] => (1, [])
    | c :: r =>
      if c = '-' then (-1, r) else if c = '+' then (1, r) else (1, c :: r)
  let d1 := sign.2.takeWhile Char.isDigit
  match sign.2.dropWhile Char.isDigit with
  | [] => if d1.isEmpty then none else some (sign.1 * digitsVal d1)
  | c :: r2 =>
    if c = '.' then
      let d2 := r2.takeWhile Char.isDigit
      if (r2.dropWhile Char.isDigit).isEmpty then
        if d1.isEmpty && d2.isEmpty then none
        else
          some (sign.1 *
            (digitsVal d1 + (digitsVal d2 : ℚ) / 10 ^ d2.length))
      else none
    else none

/-- Go `math.Round`: rounding half away from zero. -/
def goRound (x : ℚ) : ℤ :=
  if x < 0 then -⌊-x + 1 / 2⌋ else ⌊x + 1 / 2⌋

/-- Go `strings.Repeat(string(c), n)` for an `int` count: panics (modelled
as `none`) on a negative count. -/
def goRepeat (c : Char) (n : ℤ) : Option (List Char) :=
  if n < 0 then none else some (List.replicate n.toNat c)

namespace BotP2

/-- Model of `generateProgressBar` (`src/unnamed/part_002:506-513`): parse
the percentage string (a parse error leaves `p = 0`, as Go's `ParseFloat`
returns `0` with the error), compute `Round((p/100)*10)` filled segments,
and concatenate the two repeated segment runs; a negative repeat count is
a panic (`none`). -/
def generateProgressBar (percentStr : String) : Option (List Char) :=
  let p : ℚ := (parseFloatGo percentStr).getD 0
  let totalBars : ℤ := 10
  let filledBars : ℤ := goRound (p / 100 * totalBars)
  match goRepeat '▓' filledBars, goRepeat '░' (totalBars - filledBars) with
  | some a, some b => some (a ++ b)
  | _, _ => none

end BotP2

/-! Helper lemmas about the embedded operations. -/

theorem goSplit_no_sep (sep : Char) (l : List Char) (h : ∀ c ∈ l, c ≠ sep) :
    goSplit sep l = [l] := by
  induction l with
  | nil => rfl
  | cons c cs ih =>
    have hc : (c == sep) = false :=
      beq_eq_false_iff_ne.mpr (h c (List.mem_cons_self c cs))
    have hcs := ih fun x hx => h x (List.mem_cons_of_mem _ hx)
    simp [goSplit, hc, hcs]

theorem goSplit_sep_append (sep : Char) (l1 l2 : List Char)
    (h : ∀ c ∈ l1, c ≠ sep) :
    goSplit sep (l1 ++ sep :: l2) = l1 :: goSplit sep l2 := by
  induction l1 with
  | nil => simp [goSplit]
  | cons c cs ih =>
    have hc : (c == sep) = false :=
      beq_eq_false_iff_ne.mpr (h c (List.mem_cons_self c cs))
    have hcs := ih fun x hx => h x (List.mem_cons_of_mem _ hx)
    simp [goSplit, hc, hcs]

theorem takeWhile_append_all {α : Type} (p : α → Bool) (l1 l2 : List α)
    (h : ∀ c ∈ l1, p c = true) :
    (l1 ++ l2).takeWhile p = l1 ++ l2.takeWhile p := by
  induction l1 with
  | nil => simp
  | cons c cs ih =>
    simp [List.takeWhile_cons, h c (List.mem_cons_self c cs),
      ih fun x hx => h x (List.mem_cons_of_mem _ hx)]

theorem dropWhile_append_all {α : Type} (p : α → Bool) (l1 l2 : List α)
    (h : ∀ c ∈ l1, p c = true) :
    (l1 ++ l2).dropWhile p = l2.dropWhile p := by
  induction l1 with
  | nil => simp
  | cons c cs ih =>
    simp [List.dropWhile_cons, h c (List.mem_cons_self c cs),
      ih fun x hx => h x (List.mem_cons_of_mem _ hx)]

theorem mem_filterVideoFormats (l : List BotGo.FormatInfo)
    (f : BotGo.FormatInfo) :
    f ∈ BotGo.filterVideoFormats l ↔
      f ∈ l ∧ f.vcodec ≠ "none" ∧ f.acodec ≠ "none" ∧
        (f.ext = "mp4" ∨ f.ext = "webm") := by
  induction l with
  | nil => simp [BotGo.filterVideoFormats]
  | cons g rest ih =>
    rw [BotGo.filterVideoFormats]
    split
    · split
      · simp only [List.mem_cons, ih]
        constructor
        · rintro (rfl | hm) <;> tauto
        · rintro ⟨rfl | hm, hp⟩ <;> tauto
      · rw [ih]
        simp only [List.mem_cons]
        constructor
        · tauto
        · rintro ⟨rfl | hm, hp⟩ <;> tauto
    · rw [ih]
      simp only [List.mem_cons]
      constructor
      · tauto
      · rintro ⟨rfl | hm, hp⟩ <;> tauto

theorem mem_filterAudioFormats (l : List BotGo.FormatInfo)
    (f : BotGo.FormatInfo) :
    f ∈ BotGo.filterAudioFormats l ↔
      f ∈ l ∧ f.vcodec = "none" ∧ f.acodec ≠ "none" := by
  induction l with
  | nil => simp [BotGo.filterAudioFormats]
  | cons g rest ih =>
    rw [BotGo.filterAudioFormats]
    split
    · simp only [List.mem_cons, ih]
      constructor
      · rintro (rfl | hm) <;> tauto
      · rintro ⟨rfl | hm, hp⟩ <;> tauto
    · rw [ih]
      simp only [List.mem_cons]
      constructor
      · tauto
      · rintro ⟨rfl | hm, hp⟩ <;> tauto

theorem mem_insertDesc (h y : Int) (l : List Int) :
    y ∈ BotP2.insertDesc h l ↔ y = h ∨ y ∈ l := by
  induction l with
  | nil => simp [BotP2.insertDesc]
  | cons x xs ih =>
    rw [BotP2.insertDesc]
    split
    · simp [List.mem_cons]
    · simp only [List.mem_cons, ih]
      tauto

theorem insertDesc_sorted (h : Int) (l : List Int)
    (hl : l.Sorted (fun a b => b ≤ a)) :
    (BotP2.insertDesc h l).Sorted (fun a b => b ≤ a) := by
  induction l with
  | nil => simp [BotP2.insertDesc]
  | cons x xs ih =>
    rw [List.sorted_cons] at hl
    rw [BotP2.insertDesc]
    split
    · next hxh =>
      rw [List.sorted_cons]
      refine ⟨?_, List.sorted_cons.mpr hl⟩
      intro b hb
      rcases List.mem_cons.mp hb with rfl | hb
      · exact hxh
      · exact le_trans (hl.1 b hb) hxh
    · next hxh =>
      rw [List.sorted_cons]
      refine ⟨?_, ih hl.2⟩
      intro b hb
      rcases (mem_insertDesc h b xs).mp hb with rfl | hb
      · exact le_of_not_le hxh
      · exact hl.1 b hb

theorem sortDesc_sorted (l : List Int) :
    (BotP2.sortDesc l).Sorted (fun a b => b ≤ a) := by
  induction l with
  | nil => simp [BotP2.sortDesc]
  | cons x xs ih => exact insertDesc_sorted x _ ih

theorem matchProgressAt_shape (cs : List Char) (d1 d2 : List Char)
    (h : BotP2.matchProgressAt cs = some (d1, d2)) :
    d1 ≠ [] ∧ d2 ≠ [] ∧ (∀ c ∈ d1, c.isDigit = true) ∧
      (∀ c ∈ d2, c.isDigit = true) := by
  rw [BotP2.matchProgressAt] at h
  dsimp only at h
  split at h
  · split at h
    · exact absurd h (by simp)
    · split at h
      · exact absurd h (by simp)
      · next hne =>
        split at h
        · exact absurd h (by simp)
        · split at h
          · split at h
            · exact absurd h (by simp)
            · next hne2 =>
              split at h
              · exact absurd h (by simp)
              · split at h
                · rw [Option.some_inj] at h
                  obtain ⟨rfl, rfl⟩ := Prod.mk.injEq .. ▸ h
                  refine ⟨?_, ?_, ?_, ?_⟩
                  · simpa using hne
                  · simpa using hne2
                  · intro c hc; exact List.mem_takeWhile_imp hc
                  · intro c hc; exact List.mem_takeWhile_imp hc
                · exact absurd h (by simp)
          · exact absurd h (by simp)
  · exact absurd h (by simp)

theorem findProgressCapture_shape (cs : List Char) (d1 d2 : List Char)
    (h : BotP2.findProgressCapture cs = some (d1, d2)) :
    d1 ≠ [] ∧ d2 ≠ [] ∧ (∀ c ∈ d1, c.isDigit = true) ∧
      (∀ c ∈ d2, c.isDigit = true) := by
  induction cs with
  | nil => exact absurd h (by simp [BotP2.findProgressCapture])
  | cons c cs ih =>
    rw [BotP2.findProgressCapture] at h
    split at h
    · next heq => exact matchProgressAt_shape _ _ _ (heq.trans h)
    · exact ih h

theorem digit_ne_minus {c : Char} (h : c.isDigit = true) : ¬ c = '-' := by
  rintro rfl; simp [Char.isDigit] at h

theorem digit_ne_plus {c : Char} (h : c.isDigit = true) : ¬ c = '+' := by
  rintro rfl; simp [Char.isDigit] at h

theorem digit_not_dot : ('.' : Char).isDigit = false := by decide

theorem parseFloatGo_capture (d1 d2 : List Char) (h1 : d1 ≠ [])
    (hd1 : ∀ c ∈ d1, c.isDigit = true)
    (hd2 : ∀ c ∈ d2, c.isDigit = true) :
    parseFloatGo (BotP2.captureString (d1, d2)) =
      some (digitsVal d1 + (digitsVal d2 : ℚ) / 10 ^ d2.length) := by
  obtain ⟨c0, d1', rfl⟩ := List.exists_cons_of_ne_nil h1
  have hc0 : c0.isDigit = true := hd1 c0 (List.mem_cons_self _ _)
  have hdata : (BotP2.captureString (c0 :: d1', d2)).data
      = c0 :: (d1' ++ '.' :: d2) := rfl
  rw [parseFloatGo]
  rw [hdata]
  simp only [digit_ne_minus hc0, digit_ne_plus hc0, if_false]
  have htake : ((c0 :: d1') ++ '.' :: d2).takeWhile Char.isDigit
      = c0 :: d1' := by
    rw [takeWhile_append_all _ _ _ hd1]
    simp [List.takeWhile_cons, digit_not_dot]
  have hdrop : ((c0 :: d1') ++ '.' :: d2).dropWhile Char.isDigit
      = '.' :: d2 := by
    rw [dropWhile_append_all _ _ _ hd1]
    simp [List.dropWhile_cons, digit_not_dot]
  rw [List.cons_append] at htake hdrop
  simp only [htake, hdrop]
  have htake2 : d2.takeWhile Char.isDigit = d2 :=
    List.takeWhile_eq_self_iff.mpr hd2
  have hdrop2 : d2.dropWhile Char.isDigit = [] :=
    List.dropWhile_eq_nil_iff.mpr hd2
  simp [htake2, hdrop2]

theorem monitorRun_length_le (st : List Char) (evs : List BotP2.MonEv) :
    (BotP2.monitorRun st evs).length ≤
      (evs.filter BotP2.MonEv.isTick).length := by
  induction evs generalizing st with
  | nil => simp [BotP2.monitorRun]
  | cons e evs ih =>
    cases e with
    | line s =>
      rw [BotP2.monitorRun]
      dsimp only [BotP2.monitorStep]
      rw [List.filter_cons]
      simp only [BotP2.MonEv.isTick, if_false, Bool.false_eq_true]
      exact ih _
    | tick =>
      rw [BotP2.monitorRun]
      dsimp only [BotP2.monitorStep]
      rw [List.filter_cons]
      simp only [BotP2.MonEv.isTick, if_true]
      rcases hop : (if st.isEmpty = true then none
          else BotP2.findProgressCapture st) with _ | r2
      · dsimp only
        exact le_trans (ih st) (by simp)
      · dsimp only
        simpa using ih st

theorem monitorRun_provenance (st : List Char) (evs : List BotP2.MonEv)
    (r : List Char × List Char) (hr : r ∈ BotP2.monitorRun st evs) :
    BotP2.findProgressCapture st = some r
    ∨ ∃ s, BotP2.MonEv.line s ∈ evs ∧
        BotP2.findProgressCapture s.data = some r := by
  induction evs generalizing st with
  | nil => simp [BotP2.monitorRun] at hr
  | cons e evs ih =>
    cases e with
    | line s =>
      rw [BotP2.monitorRun] at hr
      dsimp only [BotP2.monitorStep] at hr
      by_cases hm : hasSub "[download]".data s.data = true
      · rw [if_pos hm] at hr
        rcases ih _ hr with hcap | ⟨t, ht, hc⟩
        · exact Or.inr ⟨s, List.mem_cons_self _ _, hcap⟩
        · exact Or.inr ⟨t, List.mem_cons_of_mem _ ht, hc⟩
      · rw [if_neg hm] at hr
        rcases ih _ hr with hcap | ⟨t, ht, hc⟩
        · exact Or.inl hcap
        · exact Or.inr ⟨t, List.mem_cons_of_mem _ ht, hc⟩
    | tick =>
      rw [BotP2.monitorRun] at hr
      dsimp only [BotP2.monitorStep] at hr
      rcases hop : (if st.isEmpty = true then none
          else BotP2.findProgressCapture st) with _ | r2
      · rw [hop] at hr
        dsimp only at hr
        rcases ih _ hr with hcap | ⟨t, ht, hc⟩
        · exact Or.inl hcap
        · exact Or.inr ⟨t, List.mem_cons_of_mem _ ht, hc⟩
      · rw [hop] at hr
        dsimp only at hr
        rcases List.mem_cons.mp hr with rfl | hr2
        · left
          by_cases he : st.isEmpty = true
          · rw [if_pos he] at hop; exact absurd hop (by simp)
          · rw [if_neg he] at hop; exact hop
        · rcases ih _ hr2 with hcap | ⟨t, ht, hc⟩
          · exact Or.inl hcap
          · exact Or.inr ⟨t, List.mem_cons_of_mem _ ht, hc⟩

theorem monitorState_eq_lastMarker (st : List Char)
    (evs : List BotP2.MonEv) :
    BotP2.monitorState st evs = (BotP2.lastMarkerLine evs).getD st := by
  induction evs generalizing st with
  | nil => rfl
  | cons e evs ih =>
    cases e with
    | tick =>
      rw [BotP2.monitorState, BotP2.lastMarkerLine]
      exact ih st
    | line s =>
      rw [BotP2.monitorState, BotP2.lastMarkerLine]
      dsimp only [BotP2.monitorStep]
      by_cases hm : hasSub "[download]".data s.data = true
      · rw [if_pos hm, ih]
        rcases hl : BotP2.lastMarkerLine evs with _ | t
        · simp [hm]
        · simp
      · rw [if_neg hm, ih]
        rcases hl : BotP2.lastMarkerLine evs with _ | t
        · simp [hm]
        · simp

theorem goRepeat_of_nonneg (c : Char) (n : ℤ) (h : ¬ n < 0) :
    goRepeat c n = some (List.replicate n.toNat c) := if_neg h

theorem goRepeat_of_neg (c : Char) (n : ℤ) (h : n < 0) :
    goRepeat c n = none := if_pos h

theorem goRound_of_nonneg (x : ℚ) (h : 0 ≤ x) :
    goRound x = ⌊x + 1 / 2⌋ := by
  rw [goRound, if_neg (not_lt.mpr h)]

theorem goRound_nonneg (x : ℚ) (h : 0 ≤ x) : 0 ≤ goRound x := by
  rw [goRound_of_nonneg x h]
  exact Int.le_floor.mpr (by push_cast; linarith)

theorem generateProgressBar_parsed (s : String) (p : ℚ)
    (hp : parseFloatGo s = some p) :
    BotP2.generateProgressBar s =
      match goRepeat '▓' (goRound (p / 100 * 10)),
            goRepeat '░' (10 - goRound (p / 100 * 10)) with
      | some a, some b => some (a ++ b)
      | _, _ => none := by
  unfold BotP2.generateProgressBar
  rw [hp]
  simp only [Option.getD_some, Int.cast_ofNat]

/-! Theorems settling the claims. -/

/-- C5 counterexample: a pre-muxed descriptor with non-empty video and audio
codecs but container `mkv` is excluded by the Video filter, so a condition
other than codec presence (the extension) does exclude descriptors,
contrary to the claim. -/
theorem filterVideo_excludes_premuxed_mkv :
    BotGo.filterVideoFormats [⟨"99", "mkv", "1080p", 0, "", "aac", "avc1"⟩]
      = []
    ∧ (BotGo.FormatInfo.mk "99" "mkv" "1080p" 0 "" "aac" "avc1").vcodec ≠ ""
    ∧ (BotGo.FormatInfo.mk "99" "mkv" "1080p" 0 "" "aac" "avc1").acodec
      ≠ "" := by
  decide

/-- C5 amended: the Video filter keeps exactly the descriptors whose video
and audio codecs are both not `"none"` and whose container is `mp4` or
`webm`; the Audio filter keeps exactly the descriptors whose video codec is
`"none"` and whose audio codec is not `"none"`. -/
theorem filter_formats_characterization (l : List BotGo.FormatInfo)
    (f : BotGo.FormatInfo) :
    (f ∈ BotGo.filterVideoFormats l ↔
      f ∈ l ∧ f.vcodec ≠ "none" ∧ f.acodec ≠ "none" ∧
        (f.ext = "mp4" ∨ f.ext = "webm"))
    ∧ (f ∈ BotGo.filterAudioFormats l ↔
      f ∈ l ∧ f.vcodec = "none" ∧ f.acodec ≠ "none") :=
  ⟨mem_filterVideoFormats l f, mem_filterAudioFormats l f⟩

/-- C8 counterexample: the part_002 video download invocation is spawned
with no wall-clock ceiling at all. -/
theorem downloadCmd_no_timeout :
    (BotP2.downloadCmd "video" "720" "./temp_downloads/vid_1_2.%(ext)s"
      "https://example.com/v").timeoutMs = none := by
  decide

/-- C8 amended: only part_002's metadata probe is bounded by a wall-clock
ceiling (15 seconds); both variants' download invocations and bot.go's
probe run with no timeout. -/
theorem subprocess_timeout_policy (url mode quality tmpl ftype fid : String) :
    (BotP2.probeCmd url).timeoutMs = some 15000
    ∧ (BotP2.downloadCmd mode quality tmpl url).timeoutMs = none
    ∧ (BotGo.probeCmd url).timeoutMs = none
    ∧ (BotGo.downloadCmd ftype fid tmpl url).timeoutMs = none := by
  refine ⟨rfl, ?_, rfl, ?_⟩
  · rw [BotP2.downloadCmd]; split <;> rfl
  · rw [BotGo.downloadCmd]; split <;> rfl

/-- C9: every file surviving a janitor sweep with retention threshold `T`
has age at most `T` at the sweep; consequently, within one scheduler
interval `I` of the last sweep, any file that survived that sweep or was
written after it has age at most `T + I`. -/
theorem janitor_age_bound (T I now t s : Nat) (ws : List WFile)
    (hts : t - s ≤ I) :
    (∀ f ∈ autoCleanerSweep T now ws, now - f.modTime ≤ T)
    ∧ (∀ f, (f ∈ autoCleanerSweep T s ws ∨ s ≤ f.modTime) →
        t - f.modTime ≤ T + I) := by
  have key : ∀ m w, ∀ f ∈ autoCleanerSweep T m w, m - f.modTime ≤ T := by
    intro m w f hf
    have h := (List.mem_filter.mp hf).2
    simp only [Bool.not_eq_true', decide_eq_false_iff_not, not_lt] at h
    exact h
  refine ⟨key now ws, ?_⟩
  intro f hf
  rcases hf with hf | hf
  · have := key s ws f hf
    omega
  · omega

/-- Witness for C9 at a concrete sweep with bot.go's retention and
interval constants. -/
theorem janitor_age_bound_witness :
    4000 - (WFile.mk "a.mp4" 5 3000).modTime ≤ BotGo.cleanerRetention
    ∧ 4300 - (WFile.mk "a.mp4" 5 3000).modTime
      ≤ BotGo.cleanerRetention + BotGo.cleanerInterval := by
  have h := janitor_age_bound BotGo.cleanerRetention BotGo.cleanerInterval
    4000 4300 4000 [⟨"a.mp4", 5, 3000⟩] (by decide)
  exact ⟨h.1 ⟨"a.mp4", 5, 3000⟩ (by decide),
    h.2 ⟨"a.mp4", 5, 3000⟩ (Or.inl (by decide))⟩

/-- C3: an artifact exceeding the 50MB ceiling is deleted from the
workspace, the session fails with reason ArtifactTooLarge, nothing is
delivered and Done is never reached — in both variants (given the
subprocess exited 0 and the artifact was located). -/
theorem artifact_too_large_never_delivered (chatID formatID finalPath : String)
    (ws ws2 : List WFile) (f g : WFile)
    (hf : BotGo.findDownloadedFile chatID formatID ws = some f)
    (hbig : f.size > MaxFileSizeBotAPI)
    (hg : statFile ws2 finalPath = some g)
    (hbig2 : g.size > MaxFileSizeBotAPI) :
    ((BotGo.downloadAndSend chatID formatID true ws).outcome
        = Outcome.Failed FailReason.ArtifactTooLarge
      ∧ (BotGo.downloadAndSend chatID formatID true ws).delivered = none
      ∧ ∀ x ∈ (BotGo.downloadAndSend chatID formatID true ws).workspace,
          x.name ≠ f.name)
    ∧ ((BotP2.performDownload finalPath true ws2).outcome
        = Outcome.Failed FailReason.ArtifactTooLarge
      ∧ (BotP2.performDownload finalPath true ws2).delivered = none
      ∧ ∀ x ∈ (BotP2.performDownload finalPath true ws2).workspace,
          x.name ≠ finalPath) := by
  have h1 : BotGo.downloadAndSend chatID formatID true ws
      = ⟨.Failed .ArtifactTooLarge, none, removeFile ws f.name, false⟩ := by
    rw [BotGo.downloadAndSend]
    simp [hf, hbig]
  have h2 : BotP2.performDownload finalPath true ws2
      = ⟨.Failed .ArtifactTooLarge, none, removeFile ws2 finalPath, false⟩ := by
    rw [BotP2.performDownload]
    simp [hg, hbig2]
  rw [h1, h2]
  refine ⟨⟨rfl, rfl, ?_⟩, rfl, rfl, ?_⟩
  · intro x hx
    have hh := (List.mem_filter.mp hx).2
    simpa using hh
  · intro x hx
    have hh := (List.mem_filter.mp hx).2
    simpa using hh

/-- Witness for C3 at concrete oversized artifacts in both variants. -/
theorem artifact_too_large_witness :
    (BotGo.downloadAndSend "7" "22" true
      [⟨"7_22_100.mp4", 60000000, 100⟩]).outcome
      = Outcome.Failed FailReason.ArtifactTooLarge
    ∧ (WFile.mk "other" 5 0).name ≠ "vid_7_100.mp4" := by
  have h := artifact_too_large_never_delivered "7" "22" "vid_7_100.mp4"
    [⟨"7_22_100.mp4", 60000000, 100⟩]
    [⟨"vid_7_100.mp4", 60000000, 100⟩, ⟨"other", 5, 0⟩]
    ⟨"7_22_100.mp4", 60000000, 100⟩ ⟨"vid_7_100.mp4", 60000000, 100⟩
    (by decide) (by decide) (by decide) (by decide)
  exact ⟨h.1.1, h.2.2.2 ⟨"other", 5, 0⟩ (by decide)⟩

/-- C4 counterexample: in bot.go a failed subprocess (non-zero exit)
leaves the job's partial artifact in the workspace — nothing is removed on
that path, so the workspace does contain a leftover file for the job. -/
theorem download_failed_leftover :
    (BotGo.downloadAndSend "7" "22" false
      [⟨"7_22_100.mp4", 1000, 100⟩]).outcome
      = Outcome.Failed FailReason.DownloadFailed
    ∧ (BotGo.downloadAndSend "7" "22" false
        [⟨"7_22_100.mp4", 1000, 100⟩]).workspace
      = [⟨"7_22_100.mp4", 1000, 100⟩] := by
  decide

/-- C4 amended: a non-zero subprocess exit yields Failed with reason
DownloadFailed and no delivery in both variants; part_002 removes the
job's final artifact path, while bot.go removes nothing — its leftovers
persist until the janitor sweeps them. -/
theorem download_failed_cleanup (chatID formatID finalPath : String)
    (ws ws2 : List WFile) :
    ((BotGo.downloadAndSend chatID formatID false ws).outcome
        = Outcome.Failed FailReason.DownloadFailed
      ∧ (BotGo.downloadAndSend chatID formatID false ws).workspace = ws
      ∧ (BotGo.downloadAndSend chatID formatID false ws).delivered = none)
    ∧ ((BotP2.performDownload finalPath false ws2).outcome
        = Outcome.Failed FailReason.DownloadFailed
      ∧ (∀ x ∈ (BotP2.performDownload finalPath false ws2).workspace,
          x.name ≠ finalPath)
      ∧ (BotP2.performDownload finalPath false ws2).delivered = none) := by
  refine ⟨⟨rfl, rfl, rfl⟩, rfl, ?_, rfl⟩
  intro x hx
  have hh := (List.mem_filter.mp hx).2
  simpa using hh

/-- Witness for C4's amended statement at a concrete failed job. -/
theorem download_failed_cleanup_witness :
    (BotGo.downloadAndSend "7" "22" false
        [⟨"7_22_100.mp4", 1000, 100⟩]).workspace
      = [⟨"7_22_100.mp4", 1000, 100⟩]
    ∧ (WFile.mk "other" 5 0).name ≠ "vid_9.mp4" := by
  have h := download_failed_cleanup "7" "22" "vid_9.mp4"
    [⟨"7_22_100.mp4", 1000, 100⟩] [⟨"vid_9.mp4", 9, 1⟩, ⟨"other", 5, 0⟩]
  exact ⟨h.1.2.1, h.2.2.1 ⟨"other", 5, 0⟩ (by decide)⟩

/-- C6 counterexample: bot.go presents the filtered list in probe order —
with a 480p descriptor listed before a 720p one, the presented list is
unchanged and so not ordered by descending resolution class. -/
theorem presentedFormats_not_sorted :
    BotGo.filterVideoFormats
        [⟨"18", "mp4", "480p", 0, "", "aac", "avc1"⟩,
         ⟨"22", "mp4", "720p", 0, "", "aac", "avc1"⟩]
      = [⟨"18", "mp4", "480p", 0, "", "aac", "avc1"⟩,
         ⟨"22", "mp4", "720p", 0, "", "aac", "avc1"⟩]
    ∧ BotGo.presentedFormats
        [⟨"18", "mp4", "480p", 0, "", "aac", "avc1"⟩,
         ⟨"22", "mp4", "720p", 0, "", "aac", "avc1"⟩]
      = [⟨"18", "mp4", "480p", 0, "", "aac", "avc1"⟩,
         ⟨"22", "mp4", "720p", 0, "", "aac", "avc1"⟩]
    ∧ ¬ specSortedDesc
        [⟨"18", "mp4", "480p", 0, "", "aac", "avc1"⟩,
         ⟨"22", "mp4", "720p", 0, "", "aac", "avc1"⟩] := by
  decide

/-- C6 amended: part_002 sorts the unique video heights in descending
order and keeps at most the top four, so its truncation drops only lower
heights; bot.go presents the filtered list in probe order (unsorted),
truncated to its first eight entries. -/
theorem presentation_order (formats2 : List BotP2.FmtP2)
    (formats : List BotGo.FormatInfo) :
    (BotP2.videoButtonHeights formats2).Sorted (fun a b => b ≤ a)
    ∧ (∀ x ∈ (BotP2.sortDesc (BotP2.collectHeights formats2)).take 4,
        ∀ y ∈ (BotP2.sortDesc (BotP2.collectHeights formats2)).drop 4,
          y ≤ x)
    ∧ BotGo.presentedFormats formats = formats.take 8 := by
  have hsorted := sortDesc_sorted (BotP2.collectHeights formats2)
  refine ⟨?_, ?_, ?_⟩
  · exact List.Pairwise.sublist (List.take_sublist 4 _) hsorted
  · intro x hx y hy
    have hp := List.pairwise_append.mp
      (show ((BotP2.sortDesc (BotP2.collectHeights formats2)).take 4
          ++ (BotP2.sortDesc (BotP2.collectHeights formats2)).drop 4).Pairwise
          (fun a b => b ≤ a) by
        rw [List.take_append_drop]; exact hsorted)
    exact hp.2.2 x hx y hy
  · rw [BotGo.presentedFormats]
    split
    · rfl
    · next hle => exact (List.take_of_length_le (by omega)).symm

/-- Witness for C6's amended statement at a concrete format list. -/
theorem presentation_order_witness :
    (240 : ℤ) ≤ 360
    ∧ BotGo.presentedFormats [] = ([] : List BotGo.FormatInfo).take 8 := by
  have h := presentation_order
    [⟨"1", "mp4", 360, "avc", "aac", 0⟩, ⟨"2", "mp4", 1080, "avc", "aac", 0⟩,
     ⟨"3", "mp4", 720, "avc", "aac", 0⟩, ⟨"4", "mp4", 240, "avc", "aac", 0⟩,
     ⟨"5", "mp4", 480, "avc", "aac", 0⟩] []
  exact ⟨h.2.1 360 (by decide) 240 (by decide), h.2.2⟩

/-- C1 counterexample: with a stored session whose format list holds only
id `22`, the callback `format:video:999` — an id absent from the stored
list — still spawns a download of id `999`. -/
theorem handleCallback_spawns_unlisted_id :
    (BotGo.handleCallback
        (some ⟨"https://example.com/v", "video",
          [⟨"22", "mp4", "720p", 0, "", "aac", "avc1"⟩]⟩)
        "format:video:999").2
      = BotGo.CallbackAct.download "999" "video"
    ∧ "999" ∉ ([⟨"22", "mp4", "720p", 0, "", "aac", "avc1"⟩] :
        List BotGo.FormatInfo).map BotGo.FormatInfo.formatID := by
  decide

/-- C2 counterexample: after one progress line, two consecutive silent
ticks make the monitor emit the same percentage twice — the update
sequence carries duplicate consecutive values, since nothing compares the
percentage with the last one sent. -/
theorem monitor_duplicate_updates :
    BotP2.monitorRun [] [.line "[download]  42.0% of 10MiB", .tick, .tick]
      = [(['4', '2'], ['0']), (['4', '2'], ['0'])]
    ∧ ¬ List.Chain' (fun a b => a ≠ b)
        (BotP2.monitorRun []
          [.line "[download]  42.0% of 10MiB", .tick, .tick]) := by
  have h : BotP2.monitorRun []
      [.line "[download]  42.0% of 10MiB", .tick, .tick]
      = [(['4', '2'], ['0']), (['4', '2'], ['0'])] := by decide
  refine ⟨h, ?_⟩
  rw [h]
  simp [List.chain'_cons]

/-- C2 amended: per ticker tick at most one update is issued, and each
update is the regex capture of the retained line — the initial retained
line or a `[download]` line from the stream; there is no
changed-since-last-sent filtering, so consecutive duplicates and
non-monotone sequences are possible. -/
theorem monitor_tick_bound_and_provenance (st : List Char)
    (evs : List BotP2.MonEv) :
    (BotP2.monitorRun st evs).length ≤ (evs.filter BotP2.MonEv.isTick).length
    ∧ ∀ r ∈ BotP2.monitorRun st evs,
        BotP2.findProgressCapture st = some r
        ∨ ∃ s, BotP2.MonEv.line s ∈ evs ∧
            BotP2.findProgressCapture s.data = some r :=
  ⟨monitorRun_length_le st evs, fun r hr => monitorRun_provenance st evs r hr⟩

/-- C1 amended: any well-formed format callback spawns a download with
the id exactly as received — neither variant checks the id against the
session's stored format list; only the absence of a session (or an empty
stored URL in bot.go) prevents the spawn. -/
theorem handleCallback_spawns_any_id (st : BotGo.UserState)
    (meta : BotP2.VideoMetaData) (ftype fid mode q : String)
    (hurl : st.lastURL ≠ "") (h1 : ':' ∉ ftype.data) (h2 : ':' ∉ fid.data)
    (h3 : ':' ∉ mode.data) (h4 : ':' ∉ q.data) :
    (BotGo.handleCallback (some st) ("format:" ++ ftype ++ ":" ++ fid)).2
      = BotGo.CallbackAct.download fid ftype
    ∧ (BotP2.handleCallback (some meta) ("dl:" ++ mode ++ ":" ++ q)).2
      = BotP2.CallbackAct.download mode q := by
  constructor
  · have hdata : ("format:" ++ ftype ++ ":" ++ fid).data
        = "format".data ++ ':' :: (ftype.data ++ ':' :: fid.data) := by
      show ("format:".data ++ ftype.data ++ [':']) ++ fid.data = _
      simp [List.append_assoc]
    have hsplit : goSplit ':' ("format:" ++ ftype ++ ":" ++ fid).data
        = ["format".data, ftype.data, fid.data] := by
      rw [hdata, goSplit_sep_append _ _ _ (by decide),
        goSplit_sep_append _ _ _ (fun c hc => by rintro rfl; exact h1 hc),
        goSplit_no_sep _ _ (fun c hc => by rintro rfl; exact h2 hc)]
    have hparts : ((goSplit ':' ("format:" ++ ftype ++ ":" ++ fid).data).map
        fun l => String.mk l) = ["format", ftype, fid] := by
      rw [hsplit]; rfl
    rw [BotGo.handleCallback]
    dsimp only
    rw [hparts]
    simp [hurl]
  · have hdata : ("dl:" ++ mode ++ ":" ++ q).data
        = "dl".data ++ ':' :: (mode.data ++ ':' :: q.data) := by
      show ("dl:".data ++ mode.data ++ [':']) ++ q.data = _
      simp [List.append_assoc]
    have hnc : ("dl:" ++ mode ++ ":" ++ q) ≠ "cancel" := by
      intro he
      have hd : ("dl:" ++ mode ++ ":" ++ q).data = "cancel".data := by
        rw [he]
      rw [hdata] at hd
      simp at hd
    have hsplit : goSplit ':' ("dl:" ++ mode ++ ":" ++ q).data
        = ["dl".data, mode.data, q.data] := by
      rw [hdata, goSplit_sep_append _ _ _ (by decide),
        goSplit_sep_append _ _ _ (fun c hc => by rintro rfl; exact h3 hc),
        goSplit_no_sep _ _ (fun c hc => by rintro rfl; exact h4 hc)]
    have hparts : ((goSplit ':' ("dl:" ++ mode ++ ":" ++ q).data).map
        fun l => String.mk l) = ["dl", mode, q] := by
      rw [hsplit]; rfl
    rw [BotP2.handleCallback]
    dsimp only
    rw [if_neg hnc, hparts]
    simp

/-- Witness for C1's amended statement at a concrete unlisted id. -/
theorem handleCallback_spawns_any_id_witness :
    (BotGo.handleCallback
        (some ⟨"https://e", "video", []⟩) ("format:" ++ "video" ++ ":" ++ "999")).2
      = BotGo.CallbackAct.download "999" "video"
    ∧ (BotP2.handleCallback (some ⟨"t", "u", []⟩)
        ("dl:" ++ "video" ++ ":" ++ "720")).2
      = BotP2.CallbackAct.download "video" "720" :=
  handleCallback_spawns_any_id ⟨"https://e", "video", []⟩ ⟨"t", "u", []⟩
    "video" "999" "video" "720" (by decide) (by decide) (by decide)
    (by decide) (by decide)

/-- Witness for C2's amended statement at a concrete run. -/
theorem monitor_tick_bound_witness :
    BotP2.findProgressCapture ([] : List Char) = some (['4', '2'], ['0'])
    ∨ ∃ s, BotP2.MonEv.line s ∈
        [BotP2.MonEv.line "[download] 42.0%", BotP2.MonEv.tick]
      ∧ BotP2.findProgressCapture s.data = some (['4', '2'], ['0']) :=
  (monitor_tick_bound_and_provenance []
    [.line "[download] 42.0%", .tick]).2 (['4', '2'], ['0']) (by decide)

/-- C7 counterexample: the line `[download] 250.0% ...` matches the
marker pattern and yields the update 250, outside 0–100; and a later
`[download]`-marked line carrying no percentage displaces the retained
line, so a tick emits nothing even though 42.0 was the most recent valid
percentage — the last valid percentage is not what is retained. -/
theorem progress_parser_counterexample :
    BotP2.findProgressCapture "[download] 250.0% of ~5MiB".data
      = some (['2', '5', '0'], ['0'])
    ∧ parseFloatGo (BotP2.captureString (['2', '5', '0'], ['0'])) = some 250
    ∧ ¬ (250 : ℚ) ≤ 100
    ∧ BotP2.monitorRun [] [.line "[download]  42.0% of x",
        .line "[download] Destination: f.mp4", .tick] = [] := by
  refine ⟨by decide, ?_, by decide, by decide⟩
  have h := parseFloatGo_capture ['2', '5', '0'] ['0'] (by decide) (by decide)
    (by decide)
  rw [h, show digitsVal ['2', '5', '0'] = 250 from by decide,
    show digitsVal ['0'] = 0 from by decide]
  norm_num

/-- C7 amended: the per-line parser is total — each line either yields
the number matched by the marker pattern, always ≥ 0 but with no upper
bound, or no update — and what is retained between ticks is the most
recent `[download]`-marked raw line (re-parsed at each tick), not the most
recent valid percentage. -/
theorem progress_parser_spec :
    (∀ cs d, BotP2.findProgressCapture cs = some d →
      ∃ p : ℚ, parseFloatGo (BotP2.captureString d) = some p ∧ 0 ≤ p)
    ∧ ∀ st evs, BotP2.monitorState st evs
        = (BotP2.lastMarkerLine evs).getD st := by
  constructor
  · rintro cs ⟨d1, d2⟩ h
    obtain ⟨hne1, hne2, hd1, hd2⟩ := findProgressCapture_shape cs d1 d2 h
    exact ⟨_, parseFloatGo_capture d1 d2 hne1 hd1 hd2, by positivity⟩
  · exact fun st evs => monitorState_eq_lastMarker st evs

/-- Witness for C7's amended statement at a concrete line. -/
theorem progress_parser_spec_witness :
    ∃ p : ℚ, parseFloatGo (BotP2.captureString (['4', '2'], ['0'])) = some p
      ∧ 0 ≤ p :=
  progress_parser_spec.1 "[download] 42.0%".data (['4', '2'], ['0'])
    (by decide)

/-- C10 counterexample: "101.0" parses to 101 > 100, yet the renderer is
still total — ten filled segments, the negative-repeat branch is not
reached — so the precondition `p ≤ 100` is not necessary for totality. -/
theorem progressBar_total_beyond_100 :
    parseFloatGo "101.0" = some 101
    ∧ BotP2.generateProgressBar "101.0" = some (List.replicate 10 '▓') := by
  have h101 : parseFloatGo "101.0" = some 101 := by
    have h := parseFloatGo_capture ['1', '0', '1'] ['0'] (by decide)
      (by decide) (by decide)
    rw [show BotP2.captureString (['1', '0', '1'], ['0']) = "101.0"
      from rfl] at h
    rw [h, show digitsVal ['1', '0', '1'] = 101 from by decide,
      show digitsVal ['0'] = 0 from by decide]
    norm_num
  refine ⟨h101, ?_⟩
  rw [generateProgressBar_parsed "101.0" 101 h101]
  have hn : goRound ((101 : ℚ) / 100 * 10) = 10 := by
    rw [goRound_of_nonneg _ (by norm_num)]
    norm_num
  rw [hn, goRepeat_of_nonneg _ _ (by norm_num),
    goRepeat_of_nonneg _ _ (by norm_num)]
  norm_num
  decide

/-- C10 amended: for a parsed percentage `p` with `0 ≤ p ≤ 100` the bar
has exactly ten segments with `Round(p/10)` of them filled; an unparsable
string yields the all-empty ten-segment bar; and for parsed `p ≥ 0` the
negative-repeat panic branch is reached exactly when `105 ≤ p` — so
`p ≤ 100` is sufficient but not necessary for totality; the exact bound
is `p < 105`. -/
theorem generateProgressBar_spec :
    (∀ s p, parseFloatGo s = some p → 0 ≤ p → p ≤ 100 →
      ∃ bar, BotP2.generateProgressBar s = some bar ∧ bar.length = 10
        ∧ bar.count '▓' = (goRound (p / 10)).toNat)
    ∧ (∀ s, parseFloatGo s = none →
        BotP2.generateProgressBar s = some (List.replicate 10 '░'))
    ∧ (∀ s p, parseFloatGo s = some p → 0 ≤ p →
        (BotP2.generateProgressBar s = none ↔ 105 ≤ p)) := by
  have hdiv : ∀ p : ℚ, p / 100 * 10 = p / 10 := fun p => by ring
  refine ⟨?_, ?_, ?_⟩
  · intro s p hp h0 h100
    rw [generateProgressBar_parsed s p hp, hdiv]
    have hx0 : (0 : ℚ) ≤ p / 10 := by positivity
    have hn0 : 0 ≤ goRound (p / 10) := goRound_nonneg _ hx0
    have hn10 : goRound (p / 10) ≤ 10 := by
      rw [goRound_of_nonneg _ hx0]
      have hlt : (p / 10 + 1 / 2 : ℚ) < ((11 : ℤ) : ℚ) := by
        push_cast; linarith
      have := Int.floor_lt.mpr hlt
      omega
    rw [goRepeat_of_nonneg _ _ (by omega), goRepeat_of_nonneg _ _ (by omega)]
    refine ⟨_, rfl, ?_, ?_⟩
    · simp only [List.length_append, List.length_replicate]
      omega
    · simp [List.count_append, List.count_replicate]
  · intro s hp
    unfold BotP2.generateProgressBar
    rw [hp]
    dsimp only
    simp only [Option.getD_none]
    have hgr : goRound ((0 : ℚ) / 100 * ((10 : ℤ) : ℚ)) = 0 := by
      rw [show ((0 : ℚ) / 100 * ((10 : ℤ) : ℚ)) = 0 by norm_num]
      rw [goRound_of_nonneg _ le_rfl]
      norm_num
    rw [hgr, goRepeat_of_nonneg _ _ (by norm_num),
      goRepeat_of_nonneg _ _ (by norm_num)]
    norm_num
    decide
  · intro s p hp h0
    rw [generateProgressBar_parsed s p hp, hdiv]
    by_cases h105 : 105 ≤ p
    · have h11 : 11 ≤ goRound (p / 10) := by
        rw [goRound_of_nonneg _ (by positivity)]
        exact Int.le_floor.mpr (by push_cast; linarith)
      rw [goRepeat_of_nonneg _ _ (by omega), goRepeat_of_neg _ _ (by omega)]
      simp [h105]
    · have hn10 : goRound (p / 10) ≤ 10 := by
        rw [goRound_of_nonneg _ (by positivity)]
        have hlt : (p / 10 + 1 / 2 : ℚ) < ((11 : ℤ) : ℚ) := by
          push_cast; linarith
        have := Int.floor_lt.mpr hlt
        omega
      have hn0 : 0 ≤ goRound (p / 10) := goRound_nonneg _ (by positivity)
      rw [goRepeat_of_nonneg _ _ (by omega), goRepeat_of_nonneg _ _ (by omega)]
      simp [h105]

/-- Witness for C10's amended statement at a concrete percentage. -/
theorem generateProgressBar_spec_witness :
    ∃ bar, BotP2.generateProgressBar "42.0" = some bar ∧ bar.length = 10
      ∧ bar.count '▓' = (goRound ((42 : ℚ) / 10)).toNat := by
  have h42 : parseFloatGo "42.0" = some 42 := by
    have h := parseFloatGo_capture ['4', '2'] ['0'] (by decide) (by decide)
      (by decide)
    rw [show BotP2.captureString (['4', '2'], ['0']) = "42.0" from rfl] at h
    rw [h, show digitsVal ['4', '2'] = 42 from by decide,
      show digitsVal ['0'] = 0 from by decide]
    norm_num
  exact generateProgressBar_spec.1 "42.0" 42 h42 (by norm_num) (by norm_num)

end CPVideos
